import Mathlib

/-!
Verification of `src/inf.py` from tmerr/truthtable-to-inf.

The program searches for boolean formulas in implicative normal form (INF)
that reproduce a given truth table.  We give a shallow embedding of the three
core functions (`powerset`, `evaluate_sentence`, `find_inf_sentences`) and
prove the testable properties stated for them.

Modelling conventions:
* Python lists become Lean `List`s; tuples become products.
* Python indexing `assignments[i]`, which raises `IndexError` when out of
  range, is modelled with `List.getElem?` wrapped into `Except String`;
  generator short-circuiting of `all`/`any` is made explicit in the
  recursion, preserving the order in which indices are read.
* A generator that is consumed to exhaustion is modelled as the pair of the
  list of yielded values and an optional exception that ended the run early.
* `math.log(x, 2)` is modelled as the exact real logarithm: it raises
  `math domain error` on `x = 0` and `is_integer()` holds exactly when `x`
  is a power of two.  This is the sizing check the spec prescribes
  ("fail with a sizing error if the size is not a power of two"), but it is
  NOT what the float computation does on every input: CPython 3.11/glibc
  computes `math.log(2 ** 29, 2) = 29.000000000000004`, so the real program
  raises `ValueError` on a valid, memory-realizable table of `2 ^ 29` rows
  (likewise at `2 ^ 31`, `2 ^ 39`, ...).  That divergence is a bug in the
  code's sizing check and is recorded as such against the search claim; the
  theorems below state the intended exact-check behaviour.  In the other
  direction the float check agrees with the exact one: no non-power-of-two
  length below `2 ^ 48 - 1` (far beyond any constructible list) passes
  `is_integer()`, so the sizing-rejection results match the program on every
  physically realizable input.
-/

namespace TruthTableInf

/-- An implication `a_1 ^ ... ^ a_n => b_1 v ... v b_m`: the pair of the
antecedent index list and the consequent index list. -/
abbrev Implication := List Nat × List Nat

/-- A sentence: a list of implications, implicitly conjoined. -/
abbrev Sentence := List Implication

/-- A truth table: rows `(assignments, output)`. -/
abbrev TruthTable := List (List Bool × Bool)

/-- The body of the `for item in powerset(seq[1:])` loop in `powerset`
(src/inf.py lines 18-20): for each `item`, yield `[seq[0]] + item` and then
`item`. -/
def includeExclude (first : α) : List (List α) → List (List α)
  | [] => []
  | item :: rest => (first :: item) :: item :: includeExclude first rest

/-- `powerset` (src/inf.py lines 12-20): if `len(seq) <= 1`, yield `seq`
then `[]`; otherwise, for each subset of the tail, yield it prefixed with the
head and then unprefixed. -/
def powerset : List α → List (List α)
  | [] => [[], []]
  | [a] => [[a], []]
  | a :: b :: rest => includeExclude a (powerset (b :: rest))

/-- Reference enumeration following the spec's words (section 4.1): base case
`m ≤ 1` yields `S` then the empty subset; the recursive case emits, for each
subset of the tail in this same order, the head-prefixed form immediately
followed by the bare form. -/
def powersetRef : List α → List (List α)
  | [] => [[], []]
  | first :: rest =>
    if (first :: rest).length ≤ 1 then [first :: rest, []]
    else includeExclude first (powersetRef rest)

/-- Python `assignments[i]`: `IndexError` when `i` is out of range. -/
def listIndex (assignments : List Bool) (i : Nat) : Except String Bool :=
  match assignments[i]? with
  | some b => .ok b
  | none => .error "list index out of range"

/-- `all(assignments[i] for i in and_idxs)`: reads the indices left to right,
stops at the first `False` value, and raises on the first out-of-range index
it actually reads. -/
def allIdx (assignments : List Bool) : List Nat → Except String Bool
  | [] => .ok true
  | i :: rest =>
    match listIndex assignments i with
    | .error e => .error e
    | .ok b => if b then allIdx assignments rest else .ok false

/-- `any(assignments[j] for j in or_idxs)`: reads the indices left to right,
stops at the first `True` value, and raises on the first out-of-range index
it actually reads. -/
def anyIdx (assignments : List Bool) : List Nat → Except String Bool
  | [] => .ok false
  | j :: rest =>
    match listIndex assignments j with
    | .error e => .error e
    | .ok b => if b then .ok true else anyIdx assignments rest

/-- `evaluate_sentence` (src/inf.py lines 23-51): for each implication in
order compute `ands_true`, then `ors_true`, then
`implication_truth = (not ands_true) or ors_true`; return `False` at the
first false implication, `True` if none is false.  An `IndexError` raised by
an index read propagates. -/
def evaluate_sentence (sentence : Sentence) (assignments : List Bool) :
    Except String Bool :=
  match sentence with
  | [] => .ok true
  | imp :: rest =>
    match allIdx assignments imp.1 with
    | .error e => .error e
    | .ok ands_true =>
      match anyIdx assignments imp.2 with
      | .error e => .error e
      | .ok ors_true =>
        let implication_truth := (!ands_true) || ors_true
        if implication_truth = false then .ok false
        else evaluate_sentence rest assignments

/-- All variable indices occurring in a sentence's antecedents and
consequents. -/
def usedIndices : Sentence → List Nat
  | [] => []
  | imp :: rest => imp.1 ++ imp.2 ++ usedIndices rest

/-- The Sentence Evaluator as the spec describes it (section 4.3): the
conjunction over the implications, in sequence order, of
`(not (conjunction of antecedent values)) or (disjunction of consequent
values)`, the empty conjunction being true and the empty disjunction false.
Stated with `getD` so it is total; it is compared with `evaluate_sentence`
only at in-range indices. -/
def specSentenceValue (sentence : Sentence) (assignments : List Bool) : Bool :=
  sentence.all fun imp =>
    (!(imp.1.all fun i => assignments.getD i false))
      || (imp.2.any fun j => assignments.getD j false)

/-- `itertools.product(powerset(list(range(num_vars))), repeat=2)`
(src/inf.py line 68): all (antecedent, consequent) pairs. -/
def implication_possibilities (num_vars : Nat) : List Implication :=
  List.product (powerset (List.range num_vars)) (powerset (List.range num_vars))

/-- `itertools.product(l, repeat=k)`: ordered `k`-tuples with the first
component in the outermost loop. -/
def productRepeat (l : List α) : Nat → List (List α)
  | 0 => [[]]
  | k + 1 => l.flatMap fun x => (productRepeat l k).map fun t => x :: t

/-- `all(evaluate_sentence(sentence, assignments) == output
for (assignments, output) in truth_table)` (src/inf.py lines 75-76): rows are
checked in order, stopping at the first disagreeing row; an exception raised
by the evaluator propagates. -/
def rowsAgree (sentence : Sentence) : TruthTable → Except String Bool
  | [] => .ok true
  | (assignments, output) :: rest =>
    match evaluate_sentence sentence assignments with
    | .error e => .error e
    | .ok v => if v == output then rowsAgree sentence rest else .ok false

/-- The `for sentence in sentences` loop of `find_inf_sentences`
(src/inf.py lines 74-77), consumed to exhaustion: the yielded sentences and,
if a row check raised, the exception that ended the run. -/
def searchFilter (truth_table : TruthTable) :
    List Sentence → List Sentence × Option String
  | [] => ([], none)
  | s :: rest =>
    match rowsAgree s truth_table with
    | .error e => ([], some e)
    | .ok b =>
      let (tail, err) := searchFilter truth_table rest
      (if b then s :: tail else tail, err)

/-- `num_vars = math.log(len(truth_table), 2)` followed by the
`is_integer()` check (src/inf.py lines 60-64), with `math.log` modelled as
the exact logarithm — the sizing semantics the spec prescribes:
`math domain error` on an empty table, `num_vars` when the length is
`2 ^ num_vars`, and `Invalid size for truth table.` otherwise.  The real
float check deviates from this at some power-of-two lengths (CPython gives
`math.log(2 ** 29, 2) = 29.000000000000004`, so the program wrongly raises
on a `2 ^ 29`-row table — a bug in the code); on non-power-of-two lengths it
agrees at every physically realizable size (see the module docstring). -/
def numVarsOf (len : Nat) : Except String Nat :=
  if len = 0 then .error "math domain error"
  else if 2 ^ Nat.log2 len = len then .ok (Nat.log2 len)
  else .error "Invalid size for truth table."

/-- `find_inf_sentences` (src/inf.py lines 54-77), consumed to exhaustion:
derive `num_vars` from the table size (an invalid size is an exception before
anything is generated), build the candidate implications and the ordered
`implication_count`-tuples of them, and yield those agreeing with every row. -/
def find_inf_sentences (truth_table : TruthTable) (implication_count : Nat) :
    List Sentence × Option String :=
  match numVarsOf truth_table.length with
  | .error e => ([], some e)
  | .ok num_vars =>
    searchFilter truth_table
      (productRepeat (implication_possibilities num_vars) implication_count)

/-! ### Lemmas about `powerset` -/

lemma length_includeExclude (a : α) (l : List (List α)) :
    (includeExclude a l).length = 2 * l.length := by
  induction l with
  | nil => rfl
  | cons t ts ih => simp [includeExclude, ih]; omega

lemma mem_includeExclude {x : List α} {a : α} {l : List (List α)} :
    x ∈ includeExclude a l ↔ ∃ t ∈ l, x = a :: t ∨ x = t := by
  induction l with
  | nil => simp [includeExclude]
  | cons t ts ih =>
    simp only [includeExclude, List.mem_cons, ih]
    constructor
    · rintro (rfl | rfl | ⟨t', ht', h⟩)
      · exact ⟨t, Or.inl rfl, Or.inl rfl⟩
      · exact ⟨x, Or.inl rfl, Or.inr rfl⟩
      · exact ⟨t', Or.inr ht', h⟩
    · rintro ⟨t', (rfl | ht'), (rfl | rfl)⟩
      · exact Or.inl rfl
      · exact Or.inr (Or.inl rfl)
      · exact Or.inr (Or.inr ⟨t', ht', Or.inl rfl⟩)
      · exact Or.inr (Or.inr ⟨x, ht', Or.inr rfl⟩)

lemma powerset_length (S : List α) :
    (powerset S).length = if S.length = 0 then 2 else 2 ^ S.length := by
  induction S using powerset.induct with
  | case1 => rfl
  | case2 a => rfl
  | case3 a b rest ih =>
    rw [powerset, length_includeExclude, ih,
      if_neg (by simp : ¬(b :: rest : List α).length = 0),
      if_neg (by simp : ¬(a :: b :: rest : List α).length = 0)]
    simp only [List.length_cons, pow_succ]
    ring

lemma powerset_sublist {S : List α} : ∀ t ∈ powerset S, t.Sublist S := by
  induction S using powerset.induct with
  | case1 =>
    intro t ht
    simp only [powerset, List.mem_cons, List.not_mem_nil, or_false] at ht
    rcases ht with rfl | rfl <;> exact List.nil_sublist _
  | case2 a =>
    intro t ht
    simp only [powerset, List.mem_cons, List.not_mem_nil, or_false] at ht
    rcases ht with rfl | rfl
    · exact List.Sublist.refl _
    · exact List.nil_sublist _
  | case3 a b rest ih =>
    intro t ht
    rw [powerset, mem_includeExclude] at ht
    obtain ⟨t', ht', rfl | rfl⟩ := ht
    · exact List.Sublist.cons₂ a (ih _ ht')
    · exact List.Sublist.cons a (ih _ ht')

lemma nodup_includeExclude {a : α} {l : List (List α)}
    (hl : l.Nodup) (ha : ∀ t ∈ l, a ∉ t) : (includeExclude a l).Nodup := by
  induction l with
  | nil => simp [includeExclude]
  | cons t ts ih =>
    rw [List.nodup_cons] at hl
    have hat : a ∉ t := ha t (List.mem_cons_self _ _)
    have hats : ∀ t' ∈ ts, a ∉ t' := fun t' ht' => ha t' (List.mem_cons_of_mem _ ht')
    rw [includeExclude, List.nodup_cons, List.nodup_cons]
    refine ⟨?_, ?_, ih hl.2 hats⟩
    · rw [List.mem_cons, mem_includeExclude]
      rintro (h | ⟨t', ht', h | rfl⟩)
      · simpa using congrArg List.length h
      · obtain ⟨-, rfl⟩ := List.cons.inj h
        exact hl.1 ht'
      · exact hats _ ht' (List.mem_cons_self _ _)
    · rw [mem_includeExclude]
      rintro ⟨t', ht', rfl | rfl⟩
      · exact hat (List.mem_cons_self _ _)
      · exact hl.1 ht'

lemma powerset_nodup {S : List α} (hS : S.Nodup) (hne : S ≠ []) :
    (powerset S).Nodup := by
  induction S using powerset.induct with
  | case1 => exact absurd rfl hne
  | case2 a => simp [powerset]
  | case3 a b rest ih =>
    rw [List.nodup_cons] at hS
    rw [powerset]
    refine nodup_includeExclude (ih hS.2 (by simp)) ?_
    intro t ht hmem
    exact hS.1 ((powerset_sublist t ht).mem hmem)

lemma getLast_includeExclude {a : α} :
    ∀ l : List (List α), l ≠ [] → (includeExclude a l).getLast? = l.getLast?
  | [], h => absurd rfl h
  | [t], _ => rfl
  | t :: t' :: ts, _ => by
    have hrec : (includeExclude a (t' :: ts)).getLast? = (t' :: ts).getLast? :=
      getLast_includeExclude (t' :: ts) (by simp)
    show ((a :: t) :: t :: includeExclude a (t' :: ts)).getLast? = _
    rcases hie : includeExclude a (t' :: ts) with _ | ⟨u, us⟩
    · simp [includeExclude] at hie
    · rw [hie] at hrec
      rw [List.getLast?_cons_cons, List.getLast?_cons_cons, hrec,
        List.getLast?_cons_cons]

lemma powerset_head {S : List α} (hne : S ≠ []) : (powerset S).head? = some S := by
  induction S using powerset.induct with
  | case1 => exact absurd rfl hne
  | case2 a => rfl
  | case3 a b rest ih =>
    have hih := ih (by simp)
    rw [powerset]
    rcases h : powerset (b :: rest) with _ | ⟨t, ts⟩
    · rw [h] at hih; simp at hih
    · rw [h] at hih
      simp only [List.head?_cons, Option.some.injEq] at hih
      simp [includeExclude, hih]

lemma powerset_getLast (S : List α) : (powerset S).getLast? = some [] := by
  induction S using powerset.induct with
  | case1 => rfl
  | case2 a => rfl
  | case3 a b rest ih =>
    have hne : powerset (b :: rest) ≠ [] := by
      intro h
      simp [h] at ih
    rw [powerset, getLast_includeExclude _ hne, ih]

lemma powerset_eq_ref (S : List α) : powerset S = powersetRef S := by
  induction S using powerset.induct with
  | case1 => rfl
  | case2 a => rfl
  | case3 a b rest ih =>
    rw [powerset, powersetRef, if_neg (by simp), ih]

/-! ### Lemmas about the evaluator -/

lemma listIndex_ok {a : List Bool} {i : Nat} (h : i < a.length) :
    listIndex a i = .ok (a.getD i false) := by
  unfold listIndex
  rw [List.getElem?_eq_getElem h, List.getD_eq_getElem?_getD, List.getElem?_eq_getElem h]
  rfl

lemma allIdx_ok {a : List Bool} : ∀ {l : List Nat}, (∀ i ∈ l, i < a.length) →
    allIdx a l = .ok (l.all fun i => a.getD i false)
  | [], _ => rfl
  | i :: rest, h => by
    have hi := h i (List.mem_cons_self _ _)
    have ih : allIdx a rest = .ok (rest.all fun j => a.getD j false) :=
      allIdx_ok fun j hj => h j (List.mem_cons_of_mem _ hj)
    simp only [allIdx, listIndex_ok hi, ih]
    cases hgd : a.getD i false
    · simp only [List.all_cons]
      rw [hgd, if_neg Bool.false_ne_true, Bool.false_and]
    · simp only [List.all_cons]
      rw [hgd, if_pos trivial, Bool.true_and]

lemma anyIdx_ok {a : List Bool} : ∀ {l : List Nat}, (∀ j ∈ l, j < a.length) →
    anyIdx a l = .ok (l.any fun j => a.getD j false)
  | [], _ => rfl
  | j :: rest, h => by
    have hj := h j (List.mem_cons_self _ _)
    have ih : anyIdx a rest = .ok (rest.any fun i => a.getD i false) :=
      anyIdx_ok fun i hi => h i (List.mem_cons_of_mem _ hi)
    simp only [anyIdx, listIndex_ok hj, ih]
    cases hgd : a.getD j false
    · simp only [List.any_cons]
      rw [hgd, if_neg Bool.false_ne_true, Bool.false_or]
    · simp only [List.any_cons]
      rw [hgd, if_pos trivial, Bool.true_or]

lemma mem_usedIndices {i : Nat} : ∀ {s : Sentence},
    i ∈ usedIndices s ↔ ∃ imp ∈ s, i ∈ imp.1 ∨ i ∈ imp.2 := by
  intro s
  induction s with
  | nil => simp [usedIndices]
  | cons imp rest ih =>
    simp only [usedIndices, List.mem_append, ih, List.mem_cons]
    constructor
    · rintro ((h | h) | ⟨imp', h1, h2⟩)
      · exact ⟨imp, Or.inl rfl, Or.inl h⟩
      · exact ⟨imp, Or.inl rfl, Or.inr h⟩
      · exact ⟨imp', Or.inr h1, h2⟩
    · rintro ⟨imp', (rfl | h1), h2⟩
      · exact Or.inl h2
      · exact Or.inr ⟨imp', h1, h2⟩

lemma evaluate_sentence_ok {a : List Bool} : ∀ {s : Sentence},
    (∀ i ∈ usedIndices s, i < a.length) →
    evaluate_sentence s a = .ok (specSentenceValue s a)
  | [], _ => rfl
  | imp :: rest, h => by
    have h1 : ∀ i ∈ imp.1, i < a.length := fun i hi =>
      h i (by simp [usedIndices, hi])
    have h2 : ∀ j ∈ imp.2, j < a.length := fun j hj =>
      h j (by simp [usedIndices, hj])
    have ih : evaluate_sentence rest a = .ok (specSentenceValue rest a) :=
      evaluate_sentence_ok fun i hi => h i (by simp [usedIndices, hi])
    simp only [evaluate_sentence, allIdx_ok h1, anyIdx_ok h2, ih, specSentenceValue,
      List.all_cons]
    cases himp : (!(imp.1.all fun i => a.getD i false))
        || (imp.2.any fun j => a.getD j false)
    · rw [if_pos rfl, Bool.false_and]
    · rw [if_neg (by simp), Bool.true_and]

lemma listIndex_congr {a₁ a₂ : List Bool} {i : Nat} (h : a₁[i]? = a₂[i]?) :
    listIndex a₁ i = listIndex a₂ i := by
  unfold listIndex
  rw [h]

lemma allIdx_congr {a₁ a₂ : List Bool} : ∀ {l : List Nat},
    (∀ i ∈ l, a₁[i]? = a₂[i]?) → allIdx a₁ l = allIdx a₂ l
  | [], _ => rfl
  | i :: rest, h => by
    have ih : allIdx a₁ rest = allIdx a₂ rest :=
      allIdx_congr fun j hj => h j (List.mem_cons_of_mem _ hj)
    simp only [allIdx, listIndex_congr (h i (List.mem_cons_self _ _)), ih]

lemma anyIdx_congr {a₁ a₂ : List Bool} : ∀ {l : List Nat},
    (∀ j ∈ l, a₁[j]? = a₂[j]?) → anyIdx a₁ l = anyIdx a₂ l
  | [], _ => rfl
  | j :: rest, h => by
    have ih : anyIdx a₁ rest = anyIdx a₂ rest :=
      anyIdx_congr fun i hi => h i (List.mem_cons_of_mem _ hi)
    simp only [anyIdx, listIndex_congr (h j (List.mem_cons_self _ _)), ih]

lemma evaluate_sentence_congr {a₁ a₂ : List Bool} : ∀ {s : Sentence},
    (∀ i ∈ usedIndices s, a₁[i]? = a₂[i]?) →
    evaluate_sentence s a₁ = evaluate_sentence s a₂
  | [], _ => rfl
  | imp :: rest, h => by
    have h1 : ∀ i ∈ imp.1, a₁[i]? = a₂[i]? := fun i hi =>
      h i (by simp [usedIndices, hi])
    have h2 : ∀ j ∈ imp.2, a₁[j]? = a₂[j]? := fun j hj =>
      h j (by simp [usedIndices, hj])
    have ih : evaluate_sentence rest a₁ = evaluate_sentence rest a₂ :=
      evaluate_sentence_congr fun i hi => h i (by simp [usedIndices, hi])
    simp only [evaluate_sentence, allIdx_congr h1, anyIdx_congr h2, ih]

lemma listIndex_append {a extra : List Bool} {i : Nat} {b : Bool}
    (h : listIndex a i = .ok b) : listIndex (a ++ extra) i = .ok b := by
  unfold listIndex at h ⊢
  cases hg : a[i]? with
  | none => rw [hg] at h; exact absurd h (by simp)
  | some v =>
    obtain ⟨hi, -⟩ := List.getElem?_eq_some_iff.mp hg
    rw [List.getElem?_append_left hi, hg]
    rw [hg] at h
    exact h

lemma allIdx_append {a extra : List Bool} {b : Bool} : ∀ {l : List Nat},
    allIdx a l = .ok b → allIdx (a ++ extra) l = .ok b
  | [], h => h
  | i :: rest, h => by
    simp only [allIdx] at h ⊢
    cases hg : listIndex a i with
    | error e => rw [hg] at h; exact absurd h (by simp)
    | ok v =>
      rw [hg] at h
      rw [listIndex_append hg]
      cases v with
      | false => simpa using h
      | true =>
        have h' : allIdx a rest = .ok b := by simpa using h
        have h'' : allIdx (a ++ extra) rest = .ok b := allIdx_append h'
        simpa using h''

lemma anyIdx_append {a extra : List Bool} {b : Bool} : ∀ {l : List Nat},
    anyIdx a l = .ok b → anyIdx (a ++ extra) l = .ok b
  | [], h => h
  | j :: rest, h => by
    simp only [anyIdx] at h ⊢
    cases hg : listIndex a j with
    | error e => rw [hg] at h; exact absurd h (by simp)
    | ok v =>
      rw [hg] at h
      rw [listIndex_append hg]
      cases v with
      | true => simpa using h
      | false =>
        have h' : anyIdx a rest = .ok b := by simpa using h
        have h'' : anyIdx (a ++ extra) rest = .ok b := anyIdx_append h'
        simpa using h''

lemma evaluate_sentence_append {a extra : List Bool} {b : Bool} : ∀ {s : Sentence},
    evaluate_sentence s a = .ok b → evaluate_sentence s (a ++ extra) = .ok b
  | [], h => h
  | imp :: rest, h => by
    simp only [evaluate_sentence] at h ⊢
    cases hA : allIdx a imp.1 with
    | error e => rw [hA] at h; exact absurd h (by simp)
    | ok av =>
      rw [hA] at h
      rw [allIdx_append hA]
      cases hO : anyIdx a imp.2 with
      | error e => rw [hO] at h; exact absurd h (by simp)
      | ok ov =>
        rw [hO] at h
        rw [anyIdx_append hO]
        cases hv : (!av) || ov with
        | false => simp only [hv] at h ⊢; simpa using h
        | true =>
          simp only [hv] at h ⊢
          simp only [Bool.true_eq_false, if_false] at h ⊢
          exact evaluate_sentence_append h

/-! ### Lemmas about the search driver -/

lemma mem_productRepeat {l : List α} : ∀ {k : Nat} {s : List α},
    s ∈ productRepeat l k ↔ s.length = k ∧ ∀ x ∈ s, x ∈ l := by
  intro k
  induction k with
  | zero =>
    intro s
    simp only [productRepeat, List.mem_singleton]
    constructor
    · rintro rfl
      exact ⟨rfl, by simp⟩
    · rintro ⟨hlen, -⟩
      exact List.length_eq_zero.mp hlen
  | succ k ih =>
    intro s
    simp only [productRepeat, List.mem_flatMap, List.mem_map]
    constructor
    · rintro ⟨x, hx, t, ht, rfl⟩
      obtain ⟨hlen, hmem⟩ := ih.mp ht
      refine ⟨by simp [hlen], ?_⟩
      intro y hy
      rcases List.mem_cons.mp hy with rfl | hy
      · exact hx
      · exact hmem y hy
    · rintro ⟨hlen, hmem⟩
      rcases s with _ | ⟨x, t⟩
      · simp at hlen
      · exact ⟨x, hmem x (List.mem_cons_self _ _), t,
          ih.mpr ⟨by simpa using hlen, fun y hy => hmem y (List.mem_cons_of_mem _ hy)⟩,
          rfl⟩

lemma mem_implication_possibilities {imp : Implication} {n : Nat} :
    imp ∈ implication_possibilities n ↔
      imp.1 ∈ powerset (List.range n) ∧ imp.2 ∈ powerset (List.range n) := by
  obtain ⟨x, y⟩ := imp
  exact List.mem_product

lemma implication_index_lt {imp : Implication} {n i : Nat}
    (h : imp ∈ implication_possibilities n) (hi : i ∈ imp.1 ∨ i ∈ imp.2) :
    i < n := by
  obtain ⟨h1, h2⟩ := mem_implication_possibilities.mp h
  rcases hi with hi | hi
  · exact List.mem_range.mp ((powerset_sublist _ h1).mem hi)
  · exact List.mem_range.mp ((powerset_sublist _ h2).mem hi)

lemma sentence_index_lt {s : Sentence} {n k i : Nat}
    (hs : s ∈ productRepeat (implication_possibilities n) k)
    (hi : i ∈ usedIndices s) : i < n := by
  obtain ⟨imp, himp, hmem⟩ := mem_usedIndices.mp hi
  exact implication_index_lt ((mem_productRepeat.mp hs).2 imp himp) hmem

lemma rowsAgree_ok {s : Sentence} : ∀ {table : TruthTable},
    (∀ row ∈ table, ∀ i ∈ usedIndices s, i < row.1.length) →
    rowsAgree s table = .ok (table.all fun row => specSentenceValue s row.1 == row.2)
  | [], _ => rfl
  | (assignments, output) :: rest, h => by
    have hrow : ∀ i ∈ usedIndices s, i < assignments.length :=
      h (assignments, output) (List.mem_cons_self _ _)
    have ih : rowsAgree s rest =
        .ok (rest.all fun row => specSentenceValue s row.1 == row.2) :=
      rowsAgree_ok fun row hr => h row (List.mem_cons_of_mem _ hr)
    simp only [rowsAgree, evaluate_sentence_ok hrow, ih, List.all_cons]
    cases hv : specSentenceValue s assignments == output
    · rw [if_neg Bool.false_ne_true, Bool.false_and]
    · rw [if_pos rfl, Bool.true_and]

lemma searchFilter_eq {table : TruthTable} {p : Sentence → Bool} :
    ∀ {sentences : List Sentence},
    (∀ s ∈ sentences, rowsAgree s table = .ok (p s)) →
    searchFilter table sentences = (sentences.filter p, none)
  | [], _ => rfl
  | s :: rest, h => by
    have hs := h s (List.mem_cons_self _ _)
    have ih : searchFilter table rest = (rest.filter p, none) :=
      searchFilter_eq fun s' hs' => h s' (List.mem_cons_of_mem _ hs')
    simp only [searchFilter, hs, ih, List.filter_cons]

lemma numVarsOf_two_pow (n : Nat) : numVarsOf (2 ^ n) = .ok n := by
  have hlog : Nat.log2 (2 ^ n) = n := by
    rw [Nat.log2_eq_log_two, Nat.log_pow one_lt_two]
  unfold numVarsOf
  rw [if_neg (Nat.two_pow_pos n).ne', hlog, if_pos rfl]

lemma numVarsOf_not_pow {len : Nat} (h : ∀ m : Nat, len ≠ 2 ^ m) :
    numVarsOf len =
      .error (if len = 0 then "math domain error"
        else "Invalid size for truth table.") := by
  unfold numVarsOf
  by_cases h0 : len = 0
  · rw [if_pos h0, if_pos h0]
  · rw [if_neg h0, if_neg h0, if_neg fun hc => h _ hc.symm]

lemma find_inf_sentences_eq {truth_table : TruthTable} {n k : Nat}
    (hlen : truth_table.length = 2 ^ n)
    (hrows : ∀ row ∈ truth_table, row.1.length = n) :
    find_inf_sentences truth_table k =
      ((productRepeat (implication_possibilities n) k).filter
        (fun s => truth_table.all fun row => specSentenceValue s row.1 == row.2),
        none) := by
  have hnum : numVarsOf truth_table.length = .ok n := by
    rw [hlen]
    exact numVarsOf_two_pow n
  unfold find_inf_sentences
  rw [hnum]
  exact searchFilter_eq fun s hs =>
    rowsAgree_ok fun row hr i hi => by
      rw [hrows row hr]
      exact sentence_index_lt hs hi

lemma three_ne_two_pow : ∀ m : Nat, (3 : Nat) ≠ 2 ^ m
  | 0 => by decide
  | 1 => by decide
  | m + 2 => by
    have h4 : (2 : Nat) ^ 2 ≤ 2 ^ (m + 2) := Nat.pow_le_pow_right (by decide) (by omega)
    have h4' : (4 : Nat) ≤ 2 ^ (m + 2) := by simpa using h4
    omega

lemma perm_all_eq {l₁ l₂ : List α} (h : l₁.Perm l₂) (f : α → Bool) :
    l₁.all f = l₂.all f := by
  rw [Bool.eq_iff_iff, List.all_eq_true, List.all_eq_true]
  constructor
  · intro hall x hx
    exact hall x (h.mem_iff.mpr hx)
  · intro hall x hx
    exact hall x (h.mem_iff.mp hx)

/-! ### Claim theorems -/

/-- C1: for every truth table of `2 ^ n` rows whose rows carry, as the data
model prescribes, assignments of length `n`, and every `k ≥ 1`, the search
with the sizing check behaving as the spec prescribes (accept exactly the
power-of-two sizes, as `numVarsOf` models it) runs without error and yields
a sentence exactly when it is an ordered `k`-tuple of implication
candidates over `n` variables that agrees with every
`(assignment, expected)` row of the table: no matching sentence is skipped
and no non-matching sentence is yielded.  The claim is right about the
intent but the shipped code falls short of it: CPython's
`math.log(len, 2).is_integer()` is `False` at `len = 2 ^ 29`, so the real
program raises `ValueError` on such a table and yields none of its matching
sentences (e.g. the `k = 1` match `[([], [0, ..., 28])]` for the table of
the 29-variable disjunction) — a bug in the code's sizing check, against
which this theorem states the intended behaviour. -/
theorem C1_find_inf_sentences_sound_complete
    (truth_table : TruthTable) (n k : Nat)
    (hlen : truth_table.length = 2 ^ n)
    (hrows : ∀ row ∈ truth_table, row.1.length = n)
    (_hk : 1 ≤ k) :
    ∃ l, find_inf_sentences truth_table k = (l, none) ∧
      ∀ s : Sentence, s ∈ l ↔
        (s.length = k ∧ ∀ imp ∈ s, imp ∈ implication_possibilities n) ∧
        ∀ row ∈ truth_table, evaluate_sentence s row.1 = .ok row.2 := by
  refine ⟨_, find_inf_sentences_eq hlen hrows, ?_⟩
  intro s
  rw [List.mem_filter]
  constructor
  · rintro ⟨hmem, hps⟩
    refine ⟨mem_productRepeat.mp hmem, ?_⟩
    intro row hr
    have hin : ∀ i ∈ usedIndices s, i < row.1.length := fun i hi => by
      rw [hrows row hr]
      exact sentence_index_lt hmem hi
    rw [evaluate_sentence_ok hin]
    have := List.all_eq_true.mp hps row hr
    exact congrArg Except.ok (by simpa using this)
  · rintro ⟨⟨hlen', hall⟩, heval⟩
    have hmem := mem_productRepeat.mpr ⟨hlen', hall⟩
    refine ⟨hmem, List.all_eq_true.mpr ?_⟩
    intro row hr
    have hin : ∀ i ∈ usedIndices s, i < row.1.length := fun i hi => by
      rw [hrows row hr]
      exact sentence_index_lt hmem hi
    have heq := heval row hr
    rw [evaluate_sentence_ok hin] at heq
    simp only [Except.ok.injEq] at heq
    simpa using heq

/-- C1 witness: the identity table over one variable at `k = 1`. -/
theorem C1_witness :
    ∃ l, find_inf_sentences [([true], true), ([false], false)] 1 = (l, none) ∧
      ∀ s : Sentence, s ∈ l ↔
        (s.length = 1 ∧ ∀ imp ∈ s, imp ∈ implication_possibilities 1) ∧
        ∀ row ∈ ([([true], true), ([false], false)] : TruthTable),
          evaluate_sentence s row.1 = .ok row.2 :=
  C1_find_inf_sentences_sound_complete _ 1 1 (by decide) (by decide) (by decide)

/-- C2: on an assignment long enough for every index used,
`evaluate_sentence` returns exactly the conjunction over the implications,
in order, of `(not antecedent-conjunction) or consequent-disjunction`, with
the empty conjunction true and the empty disjunction false; in particular
the empty sentence evaluates to true and `[([], [])]` to false. -/
theorem C2_evaluate_sentence_spec (sentence : Sentence) (assignments : List Bool)
    (h : ∀ i ∈ usedIndices sentence, i < assignments.length) :
    evaluate_sentence sentence assignments =
        .ok (specSentenceValue sentence assignments)
    ∧ evaluate_sentence [] assignments = .ok true
    ∧ evaluate_sentence [([], [])] assignments = .ok false :=
  ⟨evaluate_sentence_ok h, rfl, rfl⟩

/-- C2 witness: the sentence `a => b` on the assignment `(T, F)`. -/
theorem C2_witness :
    evaluate_sentence [([0], [1])] [true, false] =
        .ok (specSentenceValue [([0], [1])] [true, false])
    ∧ evaluate_sentence [] [true, false] = .ok true
    ∧ evaluate_sentence [([], [])] [true, false] = .ok false :=
  C2_evaluate_sentence_spec [([0], [1])] [true, false] (by decide)

/-- C3: `powerset` produces exactly the reference enumeration of the spec:
`[S, []]` when `S` has at most one element, and otherwise, for each subset
of the tail in the same recursive order, the head-prefixed subset
immediately followed by the bare subset. -/
theorem C3_powerset_matches_reference (S : List α) : powerset S = powersetRef S :=
  powerset_eq_ref S

/-- C4 counterexample: the claim quantifies over every sequence, but on a
sequence with a repeated element, `[0, 0]`, `powerset` yields the subset
`[0]` twice. -/
theorem C4_counterexample :
    1 ≤ ([0, 0] : List Nat).length ∧ ¬ (powerset ([0, 0] : List Nat)).Nodup :=
  ⟨by decide, by decide⟩

/-- C4 (amended): for every sequence `S` of distinct elements, `powerset S`
yields exactly `2 ^ n` subsets when `n ≥ 1`, with no subset repeated; every
yielded subset is an order-preserving subsequence of `S`; and for `n = 0`
it yields exactly two subsets, both empty. -/
theorem C4_powerset_count_sublist_nodup (S : List α) (hS : S.Nodup) :
    (S ≠ [] → (powerset S).length = 2 ^ S.length ∧ (powerset S).Nodup)
    ∧ (∀ t ∈ powerset S, t.Sublist S)
    ∧ (S = [] → powerset S = [[], []]) := by
  refine ⟨fun hne => ⟨?_, powerset_nodup hS hne⟩, powerset_sublist,
    fun h => by subst h; rfl⟩
  rw [powerset_length, if_neg fun h0 => hne (List.length_eq_zero.mp h0)]

/-- C4 witness: the distinct two-element sequence `[0, 1]`. -/
theorem C4_witness :
    ((([0, 1] : List Nat) ≠ [] →
        (powerset ([0, 1] : List Nat)).length = 2 ^ ([0, 1] : List Nat).length
        ∧ (powerset ([0, 1] : List Nat)).Nodup)
      ∧ (∀ t ∈ powerset ([0, 1] : List Nat), t.Sublist [0, 1])
      ∧ (([0, 1] : List Nat) = [] → powerset ([0, 1] : List Nat) = [[], []])) :=
  C4_powerset_count_sublist_nodup [0, 1] (by decide)

/-- C5 counterexample: at `n = 0` the candidate generator yields four
pairs, all equal to `([], [])`, not `4 ^ 0 = 1` distinct pairs. -/
theorem C5_counterexample :
    implication_possibilities 0 = [([], []), ([], []), ([], []), ([], [])]
    ∧ (implication_possibilities 0).length ≠ 4 ^ 0
    ∧ ¬ (implication_possibilities 0).Nodup :=
  ⟨by decide, by decide, by decide⟩

/-- C5 (amended): for every `n ≥ 1` the implication candidate generator
yields exactly `4 ^ n` pairwise distinct (antecedent, consequent) pairs;
at `n = 0` it instead yields four copies of `([], [])`. -/
theorem C5_candidates_count (n : Nat) (h : 1 ≤ n) :
    (implication_possibilities n).length = 4 ^ n
    ∧ (implication_possibilities n).Nodup := by
  have hne : List.range n ≠ [] := by
    simp only [ne_eq, List.range_eq_nil]
    omega
  have hlen : (powerset (List.range n)).length = 2 ^ n := by
    rw [powerset_length, List.length_range, if_neg (by omega)]
  constructor
  · unfold implication_possibilities
    rw [show List.product (powerset (List.range n)) (powerset (List.range n)) =
      (powerset (List.range n)) ×ˢ (powerset (List.range n)) from rfl]
    rw [List.length_product, hlen, show (4 : Nat) = 2 * 2 from rfl, Nat.mul_pow]
  · exact List.Nodup.product (powerset_nodup (List.nodup_range n) hne)
      (powerset_nodup (List.nodup_range n) hne)

/-- C5 witness: `n = 2` gives `16` distinct candidate pairs. -/
theorem C5_witness :
    (implication_possibilities 2).length = 4 ^ 2
    ∧ (implication_possibilities 2).Nodup :=
  C5_candidates_count 2 (by decide)

/-- C6: a truth table whose number of rows is not a power of two makes
`find_inf_sentences` fail immediately with the sizing `ValueError` (or, for
an empty table, `math.log`'s domain error): nothing is yielded before the
failure. -/
theorem C6_sizing_error (truth_table : TruthTable) (k : Nat)
    (h : ∀ m : Nat, truth_table.length ≠ 2 ^ m) (_hk : 1 ≤ k) :
    find_inf_sentences truth_table k =
      ([], some (if truth_table.length = 0 then "math domain error"
        else "Invalid size for truth table.")) := by
  unfold find_inf_sentences
  rw [numVarsOf_not_pow h]

/-- C6 witness: a three-row table is rejected at once. -/
theorem C6_witness :
    find_inf_sentences [([], true), ([], true), ([], true)] 1 =
      ([], some "Invalid size for truth table.") := by
  have h := C6_sizing_error [([], true), ([], true), ([], true)] 1
    (fun m => three_ne_two_pow m) (by decide)
  simpa using h

/-- C7 counterexample: the sentence `[([0, 5], [])]` contains the index 5,
out of range for the one-variable assignment `[false]`, yet
`evaluate_sentence` returns a truth value: `all()` short-circuits on the
false value at index 0 and never reads index 5. -/
theorem C7_counterexample :
    (∃ imp ∈ ([([0, 5], [])] : Sentence), ∃ i ∈ imp.1 ++ imp.2,
      ([false] : List Bool).length ≤ i)
    ∧ evaluate_sentence [([0, 5], [])] [false] = .ok true :=
  ⟨by decide, rfl⟩

/-- C7 (amended): `evaluate_sentence` never silently truncates or pads:
a truth value it returns was computed only from in-range index reads — it
is unchanged by appending further values to the assignment — and an
out-of-range index that is actually read raises an error instead.
Short-circuit evaluation may, however, return a truth value without ever
reaching a later out-of-range index. -/
theorem C7_no_silent_truncation (s : Sentence) (a extra : List Bool) (b : Bool)
    (h : evaluate_sentence s a = .ok b) :
    evaluate_sentence s (a ++ extra) = .ok b :=
  evaluate_sentence_append h

/-- C7 witness: `a => F` on `[true]`, stable under appending `[false]`. -/
theorem C7_witness :
    evaluate_sentence [([0], [])] [true, false] = .ok false :=
  C7_no_silent_truncation [([0], [])] [true] [false] false rfl

/-- C8: permuting a sentence's implications never changes the evaluator's
result on an assignment of sufficient arity, and evaluating the same
(sentence, assignment) pair twice gives the same result. -/
theorem C8_perm_invariant (s₁ s₂ : Sentence) (a : List Bool)
    (hperm : s₁.Perm s₂) (h : ∀ i ∈ usedIndices s₁, i < a.length) :
    evaluate_sentence s₁ a = evaluate_sentence s₂ a
    ∧ evaluate_sentence s₁ a = evaluate_sentence s₁ a := by
  have h₂ : ∀ i ∈ usedIndices s₂, i < a.length := fun i hi => by
    obtain ⟨imp, himp, hm⟩ := mem_usedIndices.mp hi
    exact h i (mem_usedIndices.mpr ⟨imp, hperm.mem_iff.mpr himp, hm⟩)
  refine ⟨?_, rfl⟩
  rw [evaluate_sentence_ok h, evaluate_sentence_ok h₂]
  exact congrArg Except.ok (perm_all_eq hperm _)

/-- C8 witness: swapping the two implications of a sentence. -/
theorem C8_witness :
    evaluate_sentence [([0], [1]), ([], [0])] [true, true]
        = evaluate_sentence [([], [0]), ([0], [1])] [true, true]
    ∧ evaluate_sentence [([0], [1]), ([], [0])] [true, true]
        = evaluate_sentence [([0], [1]), ([], [0])] [true, true] :=
  C8_perm_invariant [([0], [1]), ([], [0])] [([], [0]), ([0], [1])] [true, true]
    (List.Perm.swap ([], [0]) ([0], [1]) []) (by decide)

/-- C9: for a non-empty sequence the first subset `powerset` yields is the
full sequence and the last is the empty sequence. -/
theorem C9_first_last (S : List α) (hne : S ≠ []) :
    (powerset S).head? = some S ∧ (powerset S).getLast? = some [] :=
  ⟨powerset_head hne, powerset_getLast S⟩

/-- C9 witness: the sequence `[0, 1]`. -/
theorem C9_witness :
    (powerset ([0, 1] : List Nat)).head? = some [0, 1]
    ∧ (powerset ([0, 1] : List Nat)).getLast? = some [] :=
  C9_first_last [0, 1] (by decide)

/-- C10: two assignments of the same length that agree at every index a
sentence uses give the same evaluation result: values at unused indices do
not influence the outcome. -/
theorem C10_unused_indices_irrelevant (s : Sentence) (a₁ a₂ : List Bool)
    (hlen : a₁.length = a₂.length)
    (hagree : ∀ i ∈ usedIndices s, a₁.getD i false = a₂.getD i false) :
    evaluate_sentence s a₁ = evaluate_sentence s a₂ := by
  apply evaluate_sentence_congr
  intro i hi
  by_cases hlt : i < a₁.length
  · have hlt₂ : i < a₂.length := hlen ▸ hlt
    have hgd := hagree i hi
    rw [List.getD_eq_getElem?_getD, List.getD_eq_getElem?_getD,
      List.getElem?_eq_getElem hlt, List.getElem?_eq_getElem hlt₂] at hgd
    rw [List.getElem?_eq_getElem hlt, List.getElem?_eq_getElem hlt₂]
    exact congrArg some (by simpa using hgd)
  · rw [List.getElem?_eq_none (by omega), List.getElem?_eq_none (by omega)]

/-- C10 witness: assignments differing only at the unused index 2. -/
theorem C10_witness :
    evaluate_sentence [([0], [1])] [true, false, true]
      = evaluate_sentence [([0], [1])] [true, false, false] :=
  C10_unused_indices_irrelevant [([0], [1])] [true, false, true]
    [true, false, false] (by decide) (by decide)

end TruthTableInf
